import Mathlib

/-!  Verification development for the universal job scraper engine
     (`universal_job_scraper.py`).

     Embedding conventions:
     * Python strings are Lean `String`s; the heavy lifting is done on the
       underlying character lists (`String.data`).
     * Python dicts with string keys and string values are ordered
       association lists with unique keys, written `Dict` below; assignment
       updates in place or appends, matching insertion-order semantics.
     * Parsed BeautifulSoup markup is modelled as an opaque `Scope` that
       answers `select_one` queries; the soupsieve CSS engine rejects
       selectors containing pseudo-elements (`::text`, `::attr(...)`), which
       is modelled by `cssValid` and the `Except`-valued `selectOneE`.
     * `urllib.parse` (`urlparse` / `urljoin`) is modelled restricted to the
       http/https URLs this scraper handles; scheme recognition only knows
       those two schemes, and the `;`-parameter component (unused for http
       URLs without `;`) is not split out.
     * Network fetching (`get_page_content`) is a parameter
       `fetch : String → Option Page`; `none` is a fetch failure.
-/

namespace JobScraper

/-! ## Ordered string-keyed dictionaries (model of Python dict) -/

abbrev Dict := List (String × String)

/-- `d.get(k)`: the value at the first occurrence of the key. -/
def dictGet : Dict → String → Option String
  | [], _ => none
  | p :: rest, k => if p.1 == k then some p.2 else dictGet rest k

def dictGetD (d : Dict) (k dflt : String) : String :=
  (dictGet d k).getD dflt

/-- `k in d`. -/
def dictHas : Dict → String → Bool
  | [], _ => false
  | p :: rest, k => p.1 == k || dictHas rest k

/-- Python truthiness of `d.get(k)`: the key is present with a non-empty value. -/
def truthy (d : Dict) (k : String) : Bool :=
  dictGetD d k "" != ""

/-- `d[k] = v`: update in place when the key exists, else append. -/
def dictSet (d : Dict) (k v : String) : Dict :=
  if dictHas d k then d.map (fun p => if p.1 == k then (k, v) else p)
  else d ++ [(k, v)]

/-- `d.pop(k, None)`. -/
def dictPop (d : Dict) (k : String) : Dict :=
  d.filter (fun p => p.1 != k)

/-- `d.update(e)`: assign every key of `e`, in order. -/
def dictUpdate (d e : Dict) : Dict :=
  e.foldl (fun acc p => dictSet acc p.1 p.2) d

/-! ## Character-list utilities (Python string operations) -/

/-- `pat in s` (Python substring containment). -/
def hasSub (pat : List Char) : List Char → Bool
  | [] => pat.isPrefixOf []
  | c :: rest => pat.isPrefixOf (c :: rest) || hasSub pat rest

def strHasSub (s pat : String) : Bool := hasSub pat.data s.data

def leadsWith (s pat : String) : Bool := pat.data.isPrefixOf s.data

/-- Python `s.split(sep)` for a one-character separator. -/
def splitCh (sep : Char) : List Char → List (List Char)
  | [] => [[]]
  | c :: rest =>
    let r := splitCh sep rest
    if c == sep then [] :: r
    else
      match r with
      | [] => [[c]]
      | h :: t => (c :: h) :: t

/-- `sep.join(parts)`. -/
def joinCh (sep : Char) : List (List Char) → List Char
  | [] => []
  | [p] => p
  | p :: q :: rest => p ++ sep :: joinCh sep (q :: rest)

/-- Python `s.strip()` (ASCII whitespace suffices for selector strings). -/
def isSpaceB (c : Char) : Bool := c == ' ' || c == '\t' || c == '\n' || c == '\r'

def trimC (s : List Char) : List Char :=
  ((s.dropWhile isSpaceB).reverse.dropWhile isSpaceB).reverse

/-- Split at the first occurrence of a one-character separator;
    `none` in the second component when the separator is absent. -/
def splitFirstCh (sep : Char) : List Char → List Char × Option (List Char)
  | [] => ([], none)
  | c :: rest =>
    if c == sep then ([], some rest)
    else
      let r := splitFirstCh sep rest
      (c :: r.1, r.2)

/-- The part of `s` before the first occurrence of `pat`
    (Python `s.split(pat)[0]`, whole string when `pat` is absent). -/
def beforeSub (pat : List Char) : List Char → List Char
  | [] => []
  | c :: rest =>
    if pat.isPrefixOf (c :: rest) then []
    else c :: beforeSub pat rest

/-- Python `s.replace(pat, repl)` (non-overlapping, left to right); the fuel
    is the string length, consumed one character per step. -/
def replaceAux (pat repl : List Char) : Nat → List Char → List Char
  | _, [] => []
  | 0, s => s
  | fuel + 1, c :: rest =>
    if !pat.isEmpty && pat.isPrefixOf (c :: rest) then
      repl ++ replaceAux pat repl fuel ((c :: rest).drop pat.length)
    else
      c :: replaceAux pat repl fuel rest

def replaceAll (s pat repl : String) : String :=
  ⟨replaceAux pat.data repl.data s.data.length s.data⟩

def digitsVal (ds : List Char) : Nat :=
  ds.foldl (fun a c => a * 10 + (c.toNat - 48)) 0

/-- The characters of `"page="`. -/
def pageKey : List Char := ['p', 'a', 'g', 'e', '=']

/-- Does the regex `page=(\d+)` match at the head of `s`? -/
def pageAt (s : List Char) : Bool :=
  pageKey.isPrefixOf s && ((s.drop 5).headD 'x').isDigit

/-- Model of `re.search(r'page=(\d+)', s)`: the value captured at the first
    position where the pattern matches. -/
def findPageNum : List Char → Option Nat
  | [] => none
  | c :: rest =>
    if pageAt (c :: rest) then
      some (digitsVal (((c :: rest).drop 5).takeWhile Char.isDigit))
    else findPageNum rest

/-! ## Model of urllib.parse restricted to http/https -/

structure UrlParts where
  scheme : List Char
  netloc : List Char
  path : List Char
  query : List Char
  fragment : List Char
deriving DecidableEq, Repr

/-- Scheme recognition (the engine only meets http/https URLs; anything else
    parses as scheme-less). The remainder keeps the `//`. -/
def splitScheme (s : List Char) : Option (List Char × List Char) :=
  if ("https:".data).isPrefixOf s then some ("https".data, s.drop 6)
  else if ("http:".data).isPrefixOf s then some ("http".data, s.drop 5)
  else none

def netDelim (c : Char) : Bool := c == '/' || c == '?' || c == '#'

/-- `urllib.parse.urlsplit` (allow_fragments): scheme, then `//netloc` up to
    the first of `/?#`, then split off the fragment at the first `#`, then
    the query at the first `?`. -/
def urlsplitC (s : List Char) : UrlParts :=
  let sr : List Char × List Char :=
    match splitScheme s with
    | some (sch, r) => (sch, r)
    | none => ([], s)
  let nr : List Char × List Char :=
    if (['/', '/'] : List Char).isPrefixOf sr.2 then
      let r := sr.2.drop 2
      (r.takeWhile (fun c => !netDelim c), r.dropWhile (fun c => !netDelim c))
    else ([], sr.2)
  let ff := splitFirstCh '#' nr.2
  let pq := splitFirstCh '?' ff.1
  ⟨sr.1, nr.1, pq.1, (pq.2).getD [], (ff.2).getD []⟩

/-- `urllib.parse.urlunsplit`. -/
def urlunsplitC (u : UrlParts) : List Char :=
  let url := u.path
  let url :=
    if !u.netloc.isEmpty || (['/', '/'] : List Char).isPrefixOf url then
      let url := if !url.isEmpty && !(['/'] : List Char).isPrefixOf url then '/' :: url else url
      '/' :: '/' :: (u.netloc ++ url)
    else url
  let url := if !u.scheme.isEmpty then u.scheme ++ ':' :: url else url
  let url := if !u.query.isEmpty then url ++ '?' :: u.query else url
  if !u.fragment.isEmpty then url ++ '#' :: u.fragment else url

/-- The dot-segment pass of CPython's urljoin: `..` pops, `.` is skipped. -/
def dotResolve (segs : List (List Char)) : List (List Char) :=
  segs.foldl
    (fun acc seg =>
      if seg == ['.', '.'] then acc.dropLast
      else if seg == ['.'] then acc
      else acc ++ [seg]) []

/-- CPython's `segments[1:-1] = filter(None, segments[1:-1])` (only applied
    on the merged segment list of a relative reference). -/
def filterMid : List (List Char) → List (List Char)
  | [] => []
  | [x] => [x]
  | x :: y :: rest =>
    x :: (((y :: rest).dropLast.filter (fun s => !s.isEmpty)) ++ [(y :: rest).getLastD []])

/-- `urllib.parse.urljoin` (CPython algorithm, http/https inputs, no `;`
    parameter splitting). -/
def urljoinC (base url : List Char) : List Char :=
  if base.isEmpty then url
  else if url.isEmpty then base
  else
    let b := urlsplitC base
    let u := urlsplitC url
    let scheme := if (splitScheme url).isSome then u.scheme else b.scheme
    if scheme ≠ b.scheme then url
    else if !u.netloc.isEmpty then
      urlunsplitC ⟨scheme, u.netloc, u.path, u.query, u.fragment⟩
    else if u.path.isEmpty then
      urlunsplitC ⟨scheme, b.netloc, b.path,
        (if u.query.isEmpty then b.query else u.query), u.fragment⟩
    else
      let segs :=
        if (['/'] : List Char).isPrefixOf u.path then splitCh '/' u.path
        else filterMid ((splitCh '/' b.path).dropLast ++ splitCh '/' u.path)
      let resolved := dotResolve segs
      let resolved :=
        if (segs.getLastD []) == ['.'] || (segs.getLastD []) == ['.', '.'] then
          resolved ++ [[]]
        else resolved
      let path := joinCh '/' resolved
      let path := if path.isEmpty then (['/'] : List Char) else path
      urlunsplitC ⟨scheme, b.netloc, path, u.query, u.fragment⟩

def urljoin (base url : String) : String := ⟨urljoinC base.data url.data⟩

def urlparse (s : String) : UrlParts := urlsplitC s.data

/-! ## BeautifulSoup / soupsieve model -/

/-- A matched element: `text` is `get_text(strip=True)`, `attrs` its
    attribute mapping (`elem.get(name, dflt)` is `getAttr`). -/
structure Element where
  text : String
  attrs : List (String × String)
deriving DecidableEq

def Element.getAttr (e : Element) (name dflt : String) : String :=
  (((e.attrs.find? (fun p => p.1 == name)).map (fun p => p.2)).getD dflt)

/-- A parsed-markup scope (a whole page or a record-container subtree).
    `find` answers `select_one` for a syntactically valid CSS selector;
    `truthyB` is the Python truthiness of the tag (bs4 tags define `__len__`,
    so a childless container tag is falsy). -/
structure Scope where
  truthyB : Bool
  find : String → Option Element

/-- soupsieve rejects pseudo-elements (`::text`, `::attr(...)`, and any other
    `::` suffix): `select_one` raises on such a selector instead of matching. -/
def cssValid (sel : String) : Bool := !(strHasSub sel "::")

/-- `select_one`, including the raising behaviour on invalid selectors. -/
def selectOneE (sc : Scope) (sel : String) : Except Unit (Option Element) :=
  if cssValid sel then .ok (sc.find sel) else .error ()

/-- A parsed listing or detail page: the whole-page scope plus `soup.select`
    for the container selector. -/
structure Page where
  root : Scope
  select : String → List Scope

/-! ## The scraper engine (universal_job_scraper.py) -/

/-- The slice of a loaded YAML site configuration the engine reads.
    `selectors` holds the string-valued entries of `config['selectors']` in
    insertion order; the two structured entries `job_container` and
    `job_detail_selectors` are carried separately (the scan loop skips
    exactly those two keys).  `max_pages` is `pagination.max_pages` with its
    code default 10. -/
structure Config where
  site_name : String := "Unknown"
  start_url : String := ""
  job_container : String := ""
  selectors : List (String × String) := []
  job_detail_selectors : List (String × String) := []
  next_page_selector : String := ""
  use_javascript : Bool := false
  max_pages : Nat := 10

/-- The 23 field names of the `JobData` dataclass, in declaration order. -/
def jobDataFields : List String :=
  ["url", "title", "company", "location", "description", "full_description",
   "requirements", "posted_date", "job_type", "department", "experience_level",
   "salary", "benefits", "closing_date", "work_arrangement", "travel_required",
   "eligibility", "clearance", "physical_requirements", "equal_opportunity",
   "job_id", "source_site", "scraped_at"]

/-- First step of `_sanitize_job_fields` (lines 88-93): map `date_posted`
    to `posted_date` when the latter is unpopulated, then drop
    `date_posted`. -/
def sanitize_phase1 (job_data : Dict) : Dict :=
  if dictHas job_data "date_posted" then
    dictPop
      (if !truthy job_data "posted_date" && truthy job_data "date_posted" then
        dictSet job_data "posted_date" (dictGetD job_data "date_posted" "")
      else job_data)
      "date_posted"
  else job_data

/-- Second step of `_sanitize_job_fields` (lines 95-97): populate `url`
    from `apply_url` when `url` is unpopulated. -/
def sanitize_phase2 (d : Dict) : Dict :=
  if truthy d "apply_url" && !truthy d "url" then
    dictSet d "url" (dictGetD d "apply_url" "")
  else d

/-- `_sanitize_job_fields` (lines 85-106): the two alias steps, then keep
    only the `JobData` fields. -/
def _sanitize_job_fields (job_data : Dict) : Dict :=
  (sanitize_phase2 (sanitize_phase1 job_data)).filter
    (fun p => jobDataFields.contains p.1)

/-- The target a selector is evaluated against (line 185:
    `target = element if element else soup`; a falsy container tag falls
    back to the whole page). -/
def extractTarget (soup : Scope) (element : Option Scope) : Scope :=
  match element with
  | some e => if e.truthyB then e else soup
  | none => soup

/-- Model of `re.search(r'::attr\(([^)]+)\)', sel)`: the capture at the
    first position where the whole pattern matches. -/
def attrCapture : List Char → Option (List Char)
  | [] => none
  | c :: rest =>
    if ("::attr(".data).isPrefixOf (c :: rest) then
      let after := (c :: rest).drop 7
      let cap := after.takeWhile (fun d => d != ')')
      if !cap.isEmpty && ((after.drop cap.length).headD ' ' == ')') then some cap
      else attrCapture rest
    else attrCapture rest

/-- One comma-alternative of `extract_text_from_selector` (lines 190-211):
    `some v` models an early `return v`; `none` models falling through to
    the next alternative (no element matched, or the per-alternative
    try/except caught a selector error). -/
def selTry (target : Scope) (sel : String) : Option String :=
  if strHasSub sel "::text" then
    match selectOneE target (replaceAll sel "::text" "") with
    | .error _ => none
    | .ok none => none
    | .ok (some e) => some e.text
  else if strHasSub sel "::attr(" then
    match attrCapture sel.data with
    | some attrName =>
      match selectOneE target ⟨beforeSub ("::attr(".data) sel.data⟩ with
      | .error _ => none
      | .ok none => none
      | .ok (some e) => some (e.getAttr ⟨attrName⟩ "")
    | none => none
  else
    match selectOneE target sel with
    | .error _ => none
    | .ok none => none
    | .ok (some e) => some e.text

/-- The alternative loop: first early return wins, else `""`. -/
def tryAll (target : Scope) : List String → String
  | [] => ""
  | sel :: rest =>
    match selTry target sel with
    | some v => v
    | none => tryAll target rest

/-- The comma-separated, stripped alternatives of a selector expression. -/
def alternatives (selector : String) : List String :=
  (splitCh ',' selector.data).map (fun s => (⟨trimC s⟩ : String))

/-- `extract_text_from_selector(soup, selector, element)` (lines 182-216). -/
def extract_text_from_selector (soup : Scope) (selector : String)
    (element : Option Scope) : String :=
  tryAll (extractTarget soup element) (alternatives selector)

/-- The SPA-host absolute-URL reconstruction branch (lines 245-248 and
    280-284): scheme + network location + link path. -/
def spa_reconstruct (base link : String) : String :=
  let p := urlparse base
  ⟨p.scheme ++ "://".data ++ p.netloc ++ link.data⟩

/-- The relative identity-link resolution used by the listing scanner
    (lines 243-250) and the detail fetcher (lines 277-286): only links
    beginning with `/` are rewritten, with the
    `wd1.myworkdayjobs.com`-substring special case choosing SPA
    reconstruction over `urljoin`. -/
def resolve_link (config : Config) (link : String) : String :=
  if leadsWith link "/" then
    if strHasSub config.start_url "wd1.myworkdayjobs.com" then
      spa_reconstruct config.start_url link
    else urljoin config.start_url link
  else link

/-- Lines 256-258 of `scrape_job_listings`: mirror a truthy `apply_url`
    into `url`. -/
def mirror_url (d : Dict) : Dict :=
  if truthy d "apply_url" then
    dictSet d "url" (dictGetD d "apply_url" "")
  else d

/-- The per-container record construction of `scrape_job_listings`
    (lines 231-258): extract every configured field (renaming
    `date_posted` to `posted_date`), resolve a `/`-relative `apply_url`,
    stamp `source_site` and `scraped_at` (`now` stands for
    `datetime.utcnow().isoformat()`), and mirror `apply_url` into `url`. -/
def build_record (page : Page) (config : Config) (now : String)
    (container : Scope) : Dict :=
  let job0 : Dict :=
    config.selectors.foldl
      (fun jd fs =>
        if fs.1 == "date_posted" then
          dictSet jd "posted_date"
            (extract_text_from_selector page.root fs.2 (some container))
        else
          dictSet jd fs.1
            (extract_text_from_selector page.root fs.2 (some container))) []
  let job1 :=
    if truthy job0 "apply_url" && leadsWith (dictGetD job0 "apply_url" "") "/" then
      dictSet job0 "apply_url" (resolve_link config (dictGetD job0 "apply_url" ""))
    else job0
  let job2 := dictSet (dictSet job1 "source_site" config.site_name) "scraped_at" now
  mirror_url job2

/-- The container loop of `scrape_job_listings` (lines 230-267) with its
    per-page duplicate suppression: a record lacking a truthy title or
    apply_url is dropped, an already-seen apply_url is skipped (at debug
    granularity). -/
def scan_loop (page : Page) (config : Config) (now : String) :
    List Scope → List Dict → List String → List Dict
  | [], jobs, _ => jobs
  | c :: rest, jobs, seen =>
    let j := build_record page config now c
    if truthy j "title" && truthy j "apply_url" then
      if seen.contains (dictGetD j "apply_url" "") then
        scan_loop page config now rest jobs seen
      else
        scan_loop page config now rest (jobs ++ [j])
          (dictGetD j "apply_url" "" :: seen)
    else scan_loop page config now rest jobs seen

/-- `scrape_job_listings(html_content, config)` (lines 218-272). -/
def scrape_job_listings (page : Page) (config : Config) (now : String) :
    List Dict :=
  scan_loop page config now (page.select config.job_container) [] []

/-- `scrape_job_details(job_url, config)` (lines 274-305): resolve the job
    URL, fetch it, extract every `job_detail_selectors` field against the
    whole detail page; a failed fetch yields the empty mapping. -/
def scrape_job_details (job_url : String) (config : Config)
    (fetch : String → Option Page) : Dict :=
  match fetch (resolve_link config job_url) with
  | none => []
  | some page =>
    config.job_detail_selectors.foldl
      (fun jd fs =>
        dictSet jd fs.1 (extract_text_from_selector page.root fs.2 none)) []

/-- `handle_javascript_pagination(current_url, config)` (lines 337-365):
    read the first `page=(\d+)` match of the current URL (default 1),
    append `&page=<next>` (or `?page=<next>` when the URL has no `?`), and
    stop when `<next>` exceeds `pagination.max_pages`.
    (The code's `'page=' in current_url` pre-check is subsumed by the regex
    search: when no `page=<digits>` occurrence exists, the page stays 1.) -/
def handle_javascript_pagination (current_url : String) (config : Config) :
    Option String :=
  let current_page := (findPageNum current_url.data).getD 1
  let next_page := current_page + 1
  let next_url : String :=
    if current_url.data.contains '?' then
      ⟨current_url.data ++ '&' :: pageKey ++ (Nat.repr next_page).data⟩
    else
      ⟨current_url.data ++ '?' :: pageKey ++ (Nat.repr next_page).data⟩
  if next_page > config.max_pages then none
  else some next_url

/-- `get_next_page_url(html_content, config, current_url)` (lines 307-335).
    The raw `next_page_selector` string is handed to `select_one`: a `::`
    pseudo-suffix makes soupsieve raise, the outer `except` returns `None`,
    and the JavaScript fallback is skipped.  An unmatched selector, or an
    empty extracted URL, falls through to the JavaScript fallback.  The
    `'::attr(' in selector`/regex-miss path leaves `next_url` unbound, so
    `if next_url:` raises `NameError`, again caught as `None`. -/
def get_next_page_url (page : Page) (config : Config) (current_url : String) :
    Option String :=
  let jsFallback : Option String :=
    if config.use_javascript then handle_javascript_pagination current_url config
    else none
  if config.next_page_selector != "" then
    match selectOneE page.root config.next_page_selector with
    | .error _ => none
    | .ok none => jsFallback
    | .ok (some elem) =>
      if strHasSub config.next_page_selector "::attr(" then
        match attrCapture config.next_page_selector.data with
        | some a =>
          let next_url := elem.getAttr ⟨a⟩ ""
          if next_url != "" then some (urljoin current_url next_url)
          else jsFallback
        | none => none
      else
        let next_url := elem.getAttr "href" ""
        if next_url != "" then some (urljoin current_url next_url)
        else jsFallback
  else jsFallback

/-- The cross-page duplicate filter of `scrape_site` (lines 424-431):
    the enlarged seen-set together with the unique jobs, each keyed by its
    scan-time `apply_url`. -/
def filter_unique : List Dict → List String → List String × List (String × Dict)
  | [], seen => (seen, [])
  | job :: rest, seen =>
    let k := dictGetD job "apply_url" ""
    if k != "" && !seen.contains k then
      let r := filter_unique rest (k :: seen)
      (r.1, (k, job) :: r.2)
    else filter_unique rest seen

/-- The detail-scraping pass over one page's unique jobs (lines 436-449):
    each job with a truthy `apply_url` is merged in place with its detail
    fields and handed to `save_job_to_database`.  The `Bool` marks whether
    the job was saved; the `String` is its scan-time `apply_url` key. -/
def process_details (uniq : List (String × Dict)) (config : Config)
    (fetch : String → Option Page) (details : Bool) :
    List (String × Dict × Bool) :=
  uniq.map
    (fun kj =>
      if details && truthy kj.2 "apply_url" then
        (kj.1,
         dictUpdate kj.2
           (scrape_job_details (dictGetD kj.2 "apply_url" "") config fetch),
         true)
      else (kj.1, kj.2, false))

/-- The observable outcome of one `scrape_site` invocation.  `jobs` is the
    returned `all_jobs` list (sanitized records) and `sink` the records
    handed to `save_job_to_database`, each paired with the scan-time
    `apply_url` under which the cross-page deduplicator admitted the
    record; `fetches` counts listing-page fetch attempts; `finalUrl` is
    `current_url` when the loop exits. -/
structure CrawlResult where
  jobs : List (String × Dict)
  sink : List (String × Dict)
  fetches : Nat
  finalUrl : Option String
deriving DecidableEq

/-- The `while current_url and pages_scraped < max_pages` loop of
    `scrape_site` (lines 412-463); the fuel is `max_pages - pages_scraped`. -/
def scrape_site_loop (fetch : String → Option Page) (config : Config)
    (details : Bool) (now : String) :
    Nat → Option String → List String → List (String × Dict) →
    List (String × Dict) → Nat → CrawlResult
  | 0, current, _, jobs, sink, fetches => ⟨jobs, sink, fetches, current⟩
  | _ + 1, none, _, jobs, sink, fetches => ⟨jobs, sink, fetches, none⟩
  | fuel + 1, some url, seen, jobs, sink, fetches =>
    if url = "" then ⟨jobs, sink, fetches, some url⟩
    else
      match fetch url with
      | none => ⟨jobs, sink, fetches + 1, some url⟩
      | some page =>
        let su := filter_unique (scrape_job_listings page config now) seen
        let processed := process_details su.2 config fetch details
        scrape_site_loop fetch config details now fuel
          (get_next_page_url page config url) su.1
          (jobs ++ processed.map (fun t => (t.1, _sanitize_job_fields t.2.1)))
          (sink ++ (processed.filter (fun t => t.2.2)).map (fun t => (t.1, t.2.1)))
          (fetches + 1)

/-- `scrape_site(config_file, max_pages, scrape_job_details)`
    (lines 398-466), with the configuration already loaded. -/
def scrape_site (fetch : String → Option Page) (config : Config)
    (max_pages : Nat) (details : Bool) (now : String) : CrawlResult :=
  scrape_site_loop fetch config details now max_pages (some config.start_url)
    [] [] [] 0

/-! ## Statement-support definitions -/

/-- Is `s` an absolute http(s) URL: a recognized scheme and a non-empty
    network location. -/
def isHttpAbsC (s : List Char) : Bool :=
  let u := urlsplitC s
  (u.scheme == "http".data || u.scheme == "https".data) && !u.netloc.isEmpty

def isHttpAbs (s : String) : Bool := isHttpAbsC s.data

/-- The path component the urljoin branch computes for a `/`-led reference
    (the segment pipeline of `urljoinC` on such a reference). -/
def resolvedSlashPath (t : List Char) : List Char :=
  let segs := splitCh '/' ((urlsplitC ('/' :: t)).path)
  let resolved := dotResolve segs
  let resolved :=
    if (segs.getLastD []) == ['.'] || (segs.getLastD []) == ['.', '.'] then
      resolved ++ [[]]
    else resolved
  let path := joinCh '/' resolved
  if path.isEmpty then (['/'] : List Char) else path

/-- Re-assembling a scheme-less, netloc-less URL reference from its parsed
    path / query / fragment (the inverse direction of `urlsplitC` on such
    references, when it exists). -/
def reassembleRef (u : UrlParts) : List Char :=
  u.path ++ (if u.query.isEmpty then [] else '?' :: u.query) ++
    (if u.fragment.isEmpty then [] else '#' :: u.fragment)

/-! ## Concrete fixtures for counterexamples and witnesses -/

/-- Markup in which `a.x` matches an element with empty text and `a.y` one
    with text `hello`. -/
def sAlt : Scope :=
  ⟨true, fun s =>
    if s = "a.x" then some ⟨"", []⟩
    else if s = "a.y" then some ⟨"hello", []⟩
    else none⟩

/-- Markup in which only `a.y` matches. -/
def sAltW : Scope :=
  ⟨true, fun s => if s = "a.y" then some ⟨"hello", []⟩ else none⟩

/-- A listing page whose `a.next` element links to `/p2`, with no job
    containers. -/
def pageNext : Page :=
  ⟨⟨true, fun s => if s = "a.next" then some ⟨"Next", [("href", "/p2")]⟩ else none⟩,
   fun _ => []⟩

def cfgAttrNext : Config := { next_page_selector := "a.next::attr(href)" }

def cfgAttrNextJs : Config :=
  { next_page_selector := "a.next::attr(href)", use_javascript := true }

def cfgPlainNext : Config :=
  { start_url := "https://ex.com/jobs", next_page_selector := "a.next",
    max_pages := 1 }

def fetchNext : String → Option Page := fun _ => some pageNext

/-- A job container with title `Job1` and link `https://ex.com/j1`. -/
def contScope6 : Scope :=
  ⟨true, fun s =>
    if s = "h2" then some ⟨"Job1", []⟩
    else if s = "a" then some ⟨"", [("href", "https://ex.com/j1")]⟩
    else none⟩

def listPage6 : Page :=
  ⟨⟨true, fun _ => none⟩, fun s => if s = "div.job" then [contScope6] else []⟩

/-- A detail page on which no selector matches anything. -/
def emptyPage : Page := ⟨⟨true, fun _ => none⟩, fun _ => []⟩

def fetch6 : String → Option Page :=
  fun u =>
    if u = "https://ex.com/a" then some listPage6
    else if u = "https://ex.com/j1" then some emptyPage
    else none

/-- A profile whose detail selectors name `title`, which the detail page
    fails to match. -/
def cfg6 : Config :=
  { site_name := "S", start_url := "https://ex.com/a", job_container := "div.job",
    selectors := [("title", "h2"), ("apply_url", "a::attr(href)")],
    job_detail_selectors := [("title", "h1.t")] }

/-- Same profile but with detail selectors that do not name `title`/`url`. -/
def cfg6w : Config :=
  { site_name := "S", start_url := "https://ex.com/a", job_container := "div.job",
    selectors := [("title", "h2"), ("apply_url", "a::attr(href)")],
    job_detail_selectors := [("description", "div.d")] }

/-- A fetcher that succeeds only on page 1 (`https://s/1`); page 1 links to
    page 2, whose fetch fails. -/
def listPage9 : Page :=
  ⟨⟨true, fun s => if s = "a.next" then some ⟨"", [("href", "https://s/2")]⟩ else none⟩,
   fun s => if s = "div.job" then [contScope6] else []⟩

def fetch9 : String → Option Page :=
  fun u => if u = "https://s/1" then some listPage9 else none

def cfg9 : Config :=
  { site_name := "S", start_url := "https://s/1", job_container := "div.job",
    selectors := [("title", "h2"), ("apply_url", "a::attr(href)")],
    next_page_selector := "a.next" }

/-! ## Basic dictionary lemmas -/

theorem dictGet_none_of_not_has (d : Dict) (k : String)
    (h : dictHas d k = false) : dictGet d k = none := by
  induction d with
  | nil => rfl
  | cons p rest ih =>
    simp only [dictHas, Bool.or_eq_false_iff] at h
    simp [dictGet, h.1, ih h.2]

theorem dictGet_mapset_self (d : Dict) (k v : String) :
    dictGet (d.map (fun p => if p.1 == k then (k, v) else p)) k =
      if dictHas d k then some v else none := by
  induction d with
  | nil => rfl
  | cons p rest ih =>
    cases hp : p.1 == k
    · simp only [List.map_cons, hp, Bool.false_eq_true, if_false, dictGet,
        dictHas, Bool.false_or, ih]
    · simp only [List.map_cons, hp, if_true, dictGet, dictHas,
        beq_self_eq_true, Bool.true_or]

theorem dictGet_mapset_ne (d : Dict) (k v q : String) (h : ¬ k = q) :
    dictGet (d.map (fun p => if p.1 == k then (k, v) else p)) q =
      dictGet d q := by
  induction d with
  | nil => rfl
  | cons p rest ih =>
    simp only [List.map_cons, dictGet]
    cases hp : p.1 == k
    · simp only [hp, Bool.false_eq_true, if_false, dictGet, ih]
    · have hp1 : p.1 = k := by simpa using hp
      have hq : (p.1 == q) = false := by
        rw [hp1]
        exact beq_false_of_ne h
      simp only [hp, if_true, dictGet, beq_false_of_ne h, hq,
        Bool.false_eq_true, if_false, ih]

theorem dictGet_append_self (d : Dict) (k v : String) :
    dictGet (d ++ [(k, v)]) k = some ((dictGet d k).getD v) := by
  induction d with
  | nil => simp [dictGet]
  | cons p rest ih =>
    cases hp : p.1 == k
    · simp [dictGet, hp, ih]
    · simp [dictGet, hp]

theorem dictGet_append_ne (d : Dict) (k v q : String) (h : ¬ k = q) :
    dictGet (d ++ [(k, v)]) q = dictGet d q := by
  induction d with
  | nil => simp [dictGet, beq_false_of_ne h]
  | cons p rest ih =>
    cases hp : p.1 == q
    · simp [dictGet, hp, ih]
    · simp [dictGet, hp]

theorem dictGet_set_self (d : Dict) (k v : String) :
    dictGet (dictSet d k v) k = some v := by
  unfold dictSet
  cases h : dictHas d k
  · simp only [Bool.false_eq_true, if_false]
    rw [dictGet_append_self, dictGet_none_of_not_has d k h]
    rfl
  · simp only [if_true]
    rw [dictGet_mapset_self, h]
    rfl

theorem dictGet_set_ne (d : Dict) (k v q : String) (h : ¬ k = q) :
    dictGet (dictSet d k v) q = dictGet d q := by
  unfold dictSet
  cases hh : dictHas d k
  · simp only [Bool.false_eq_true, if_false]
    exact dictGet_append_ne d k v q h
  · simp only [if_true]
    exact dictGet_mapset_ne d k v q h

theorem dictGet_pop_ne (d : Dict) (k q : String) (h : ¬ k = q) :
    dictGet (dictPop d k) q = dictGet d q := by
  induction d with
  | nil => rfl
  | cons p rest ih =>
    simp only [dictPop, List.filter_cons] at ih ⊢
    cases hp : p.1 != k
    · have hp1 : p.1 = k := by simpa using hp
      have hq : (p.1 == q) = false := by
        rw [hp1]
        exact beq_false_of_ne h
      simp only [hp, Bool.false_eq_true, if_false, ih, dictGet, hq]
    · simp only [hp, if_true, dictGet, ih]

theorem dictGet_filter (d : Dict) (f : String → Bool) (k : String)
    (hk : f k = true) :
    dictGet (d.filter (fun p => f p.1)) k = dictGet d k := by
  induction d with
  | nil => rfl
  | cons p rest ih =>
    simp only [List.filter_cons]
    cases hp : p.1 == k
    · cases hf : f p.1
      · simp only [hf, Bool.false_eq_true, if_false, ih, dictGet, hp]
      · simp only [hf, if_true, dictGet, hp, Bool.false_eq_true, if_false, ih]
    · have hp1 : p.1 = k := by simpa using hp
      have hf : f p.1 = true := by
        rw [hp1]
        exact hk
      simp only [hf, if_true, dictGet, hp]

theorem dictGet_update_not_mem (d e : Dict) (k : String)
    (h : ∀ p ∈ e, ¬ p.1 = k) :
    dictGet (dictUpdate d e) k = dictGet d k := by
  induction e generalizing d with
  | nil => rfl
  | cons p rest ih =>
    have h1 : ¬ p.1 = k := h p (List.mem_cons_self p rest)
    have h2 : ∀ q ∈ rest, ¬ q.1 = k := fun q hq => h q (List.mem_cons_of_mem p hq)
    show dictGet (dictUpdate (dictSet d p.1 p.2) rest) k = dictGet d k
    rw [ih (dictSet d p.1 p.2) h2, dictGet_set_ne d p.1 p.2 k h1]

/-- Membership after a dict assignment: the element was there or carries the
    assigned key. -/
theorem mem_dictSet (d : Dict) (k v : String) (p : String × String)
    (h : p ∈ dictSet d k v) : p ∈ d ∨ p.1 = k := by
  unfold dictSet at h
  cases hh : dictHas d k
  · rw [hh] at h
    simp only [Bool.false_eq_true, if_false, List.mem_append] at h
    rcases h with h | h
    · exact Or.inl h
    · right
      have hp : p = (k, v) := by simpa using h
      rw [hp]
  · rw [hh] at h
    simp only [if_true, List.mem_map] at h
    obtain ⟨q, hq, hqe⟩ := h
    by_cases hqk : q.1 == k
    · rw [if_pos hqk] at hqe
      right
      rw [← hqe]
    · rw [if_neg hqk] at hqe
      exact Or.inl (hqe ▸ hq)

/-! ## Supporting lemmas for the claims -/

/-- Keys surviving a key-filter all satisfy the filter. -/
theorem filter_keys_all (l : Dict) (f : String → Bool) :
    ((l.filter (fun p => f p.1)).map Prod.fst).all f = true := by
  rw [List.all_eq_true]
  intro k hk
  simp only [List.mem_map] at hk
  obtain ⟨p, hp, hpk⟩ := hk
  rw [List.mem_filter] at hp
  rw [← hpk]
  exact hp.2

/-- The fetch counter of the crawl loop grows by at most the remaining
    fuel. -/
theorem scrape_site_loop_fetches (f : String → Option Page) (c : Config)
    (d : Bool) (now : String) :
    ∀ (fuel : Nat) (cur : Option String) (seen : List String)
      (jobs sink : List (String × Dict)) (n : Nat),
      (scrape_site_loop f c d now fuel cur seen jobs sink n).fetches ≤ n + fuel
  | 0, _, _, _, _, n => by simp [scrape_site_loop]
  | fuel + 1, none, _, _, _, n => by simp [scrape_site_loop]
  | fuel + 1, some url, seen, jobs, sink, n => by
    by_cases hu : url = ""
    · simp [scrape_site_loop, hu]
    · cases hf : f url with
      | none => simp [scrape_site_loop, hu, hf]
      | some page =>
        simp only [scrape_site_loop, hu, if_false, hf]
        exact le_trans
          (scrape_site_loop_fetches f c d now fuel _ _ _ _ (n + 1))
          (by omega)

/-! ## Counterexamples -/

/-- C2, counterexample: on a raw record with no recognized keys,
    `_sanitize_job_fields` returns the empty record — `title` (and every
    other canonical field) is absent, so the output does not have all 23
    canonical fields present. -/
theorem C2_counterexample :
    _sanitize_job_fields [("foo", "bar")] = [] ∧
    dictHas (_sanitize_job_fields [("foo", "bar")]) "title" = false := by
  decide

/-- C3, counterexample: with a profile whose pagination rule sets
    `max_pages = 1` but whose next-page selector keeps resolving,
    `scrape_site` invoked with argument `max_pages = 3` fetches 3 listing
    pages, and the loop exits with a further page locator still produced
    (not exhausted).  The profile-level bound constrains only the
    synthetic-paging branch. -/
theorem C3_counterexample :
    cfgPlainNext.max_pages = 1 ∧
    (scrape_site fetchNext cfgPlainNext 3 false "t").fetches = 3 ∧
    (scrape_site fetchNext cfgPlainNext 3 false "t").finalUrl =
      some "https://ex.com/p2" := by
  decide

/-- C4, counterexample: on a locator that already carries `page=2`, the
    synthetic paginator returns the locator with `&page=3` appended — the
    existing `page=2` parameter is retained, not set to 3; indeed the
    code's own parse of the returned locator still reads page 2. -/
theorem C4_counterexample :
    handle_javascript_pagination "http://e.com/jobs?page=2" ({} : Config) =
      some "http://e.com/jobs?page=2&page=3" ∧
    findPageNum ("http://e.com/jobs?page=2&page=3").data = some 2 ∧
    "http://e.com/jobs?page=2&page=3" ≠ "http://e.com/jobs?page=3" := by
  decide

/-- C5, counterexample: with `a.x` matching an element whose text is empty
    and `a.y` matching one with text `hello`, the fallback selector
    `a.x, a.y` extracts `""`, not `hello`: an alternative whose result is
    empty does stop the search. -/
theorem C5_counterexample :
    extract_text_from_selector sAlt "a.x, a.y" none = "" ∧
    extract_text_from_selector sAlt "a.y" none = "hello" := by
  decide

/-- C6, counterexample: when the profile's detail selectors name `title`
    and the detail page does not match it, the merged detail fields
    overwrite the scanned title with `""`; the record handed to the sink
    and the record in the returned collection both have an empty title. -/
theorem C6_counterexample :
    (scrape_site fetch6 cfg6 1 true "t").sink.map
        (fun kj => dictGetD kj.2 "title" "") = [""] ∧
    (scrape_site fetch6 cfg6 1 true "t").jobs.map
        (fun kj => dictGetD kj.2 "title" "") = [""] := by
  decide

/-- C7, counterexample: a next-page selector carrying an `::attr(href)`
    suffix resolves to the non-empty value `/p2` through the field
    extractor, yet the paginator returns `None` (the raw selector string is
    rejected by the CSS engine and the exception handler returns `None`,
    with or without the JavaScript fallback enabled). -/
theorem C7_counterexample :
    extract_text_from_selector pageNext.root "a.next::attr(href)" none = "/p2" ∧
    get_next_page_url pageNext cfgAttrNext "https://ex.com/jobs" = none ∧
    get_next_page_url pageNext cfgAttrNextJs "https://ex.com/jobs" = none := by
  decide

/-- C2 (amended): sanitization is a total function — for any raw record it
    returns, without raising, a record every one of whose keys lies in the
    canonical 23-field set (extraneous keys are dropped; canonical fields
    missing from the input are not inserted and only default to empty
    strings when the record is instantiated as `JobData`). -/
theorem C2_sanitize_keys_canonical (d : Dict) :
    ((_sanitize_job_fields d).map Prod.fst).all
      (fun k => jobDataFields.contains k) = true :=
  filter_keys_all _ _

/-- C3 (amended): a `scrape_site` invocation fetches at most M listing
    pages, where M is `scrape_site`'s own `max_pages` argument; the
    profile's pagination-rule `max_pages` plays no part in this bound. -/
theorem C3_pages_bounded_by_argument (f : String → Option Page) (c : Config)
    (maxp : Nat) (d : Bool) (now : String) :
    (scrape_site f c maxp d now).fetches ≤ maxp := by
  simpa using scrape_site_loop_fetches f c d now maxp (some c.start_url) [] [] [] 0

/-- C10, counterexample: for the absolute start URL `https://h.com/p` and
    the identity link `//evil.org/x` (which begins with `/`), the SPA
    reconstruction branch and the generic urljoin branch disagree. -/
theorem C10_counterexample :
    spa_reconstruct "https://h.com/p" "//evil.org/x" =
      "https://h.com//evil.org/x" ∧
    urljoin "https://h.com/p" "//evil.org/x" = "https://evil.org/x" ∧
    leadsWith "//evil.org/x" "/" = true ∧
    isHttpAbs "https://h.com/p" = true := by
  decide

/-! ## Extraction fallback (C5) -/

/-- The alternative loop returns the value of the first alternative that
    early-returns, skipping every earlier one that fell through. -/
theorem tryAll_append (target : Scope) (pre : List String) (sel : String)
    (post : List String) (v : String)
    (hpre : ∀ s ∈ pre, selTry target s = none)
    (hsel : selTry target sel = some v) :
    tryAll target (pre ++ sel :: post) = v := by
  induction pre with
  | nil => simp [tryAll, hsel]
  | cons s rest ih =>
    have hs : selTry target s = none := hpre s (List.mem_cons_self s rest)
    simp only [List.cons_append, tryAll, hs]
    exact ih (fun q hq => hpre q (List.mem_cons_of_mem s hq))

/-- When every alternative falls through, the loop returns `""`. -/
theorem tryAll_none (target : Scope) (sels : List String)
    (h : ∀ s ∈ sels, selTry target s = none) :
    tryAll target sels = "" := by
  induction sels with
  | nil => rfl
  | cons s rest ih =>
    simp only [tryAll, h s (List.mem_cons_self s rest)]
    exact ih (fun q hq => h q (List.mem_cons_of_mem s hq))

/-- C5 (amended): `extract_text_from_selector` evaluates the
    comma-separated alternatives left to right and returns the value —
    possibly empty — of the first alternative whose CSS match locates an
    element; an alternative that locates no element (or whose selector the
    CSS engine rejects) does not stop the search; and when no alternative
    locates an element the function returns the empty string rather than
    raising. -/
theorem C5_first_locating_alternative (soup : Scope) (el : Option Scope)
    (selector : String) (pre post : List String) (sel v : String)
    (hsplit : alternatives selector = pre ++ sel :: post)
    (hpre : ∀ s ∈ pre, selTry (extractTarget soup el) s = none)
    (hsel : selTry (extractTarget soup el) sel = some v) :
    extract_text_from_selector soup selector el = v ∧
    (∀ s2 : String,
      (∀ q ∈ alternatives s2, selTry (extractTarget soup el) q = none) →
      extract_text_from_selector soup s2 el = "") := by
  constructor
  · show tryAll (extractTarget soup el) (alternatives selector) = v
    rw [hsplit]
    exact tryAll_append _ _ _ _ _ hpre hsel
  · intro s2 h2
    exact tryAll_none _ _ h2

/-- C5 witness: with `a.x` matching nothing and `a.y` matching text
    `hello`, the fallback selector `a.x, a.y` extracts `hello`. -/
theorem C5_witness :
    extract_text_from_selector sAltW "a.x, a.y" none = "hello" :=
  (C5_first_locating_alternative sAltW none "a.x, a.y" ["a.x"] [] "a.y" "hello"
    (by decide) (by decide) (by decide)).1

/-! ## Plain next-page selectors (C7) -/

/-- Substring containment is monotone in the pattern: containing an
    extended pattern implies containing its prefix. -/
theorem hasSub_of_append (p q s : List Char)
    (h : hasSub (p ++ q) s = true) : hasSub p s = true := by
  induction s with
  | nil =>
    rw [hasSub, List.isPrefixOf_iff_prefix] at h
    have hpq : p ++ q = [] := List.prefix_nil.mp h
    have hp : p = [] := (List.append_eq_nil.mp hpq).1
    rw [hasSub, List.isPrefixOf_iff_prefix, hp]
  | cons c rest ih =>
    rw [hasSub, Bool.or_eq_true] at h
    rcases h with h | h
    · rw [List.isPrefixOf_iff_prefix] at h
      rw [hasSub, Bool.or_eq_true]
      left
      rw [List.isPrefixOf_iff_prefix]
      exact (List.prefix_append p q).trans h
    · rw [hasSub, Bool.or_eq_true]
      exact Or.inr (ih h)

/-- C7 (amended): when the configured next-page selector is non-empty,
    carries no `::` pseudo-suffix, and matches an element whose `href`
    attribute is non-empty, the paginator returns that value resolved
    against the current locator.  (A selector carrying an `::attr(NAME)`
    suffix is handed raw to the CSS engine, which rejects it, so the
    paginator instead returns `None` — `C7_counterexample`.) -/
theorem C7_plain_next_selector (page : Page) (config : Config)
    (current_url : String) (e : Element)
    (hne : ¬ config.next_page_selector = "")
    (hvalid : strHasSub config.next_page_selector "::" = false)
    (hfind : page.root.find config.next_page_selector = some e)
    (hhref : ¬ Element.getAttr e "href" "" = "") :
    get_next_page_url page config current_url =
      some (urljoin current_url (Element.getAttr e "href" "")) := by
  have hattr : strHasSub config.next_page_selector "::attr(" = false := by
    cases hc : strHasSub config.next_page_selector "::attr("
    · rfl
    · exfalso
      have h2 : hasSub ("::".data ++ "attr(".data)
          config.next_page_selector.data = true := hc
      have h3 := hasSub_of_append ("::".data) ("attr(".data) _ h2
      rw [show hasSub ("::".data) config.next_page_selector.data =
            strHasSub config.next_page_selector "::" from rfl, hvalid] at h3
      exact Bool.false_ne_true h3
  have hok : selectOneE page.root config.next_page_selector =
      .ok (some e) := by
    rw [selectOneE, cssValid, hvalid]
    simp [hfind]
  unfold get_next_page_url
  rw [hok]
  simp [hne, hattr, hhref]

/-- C7 witness: a plain `a.next` selector whose element's `href` is `/p2`
    advances the paginator to the resolved next page. -/
theorem C7_witness :
    get_next_page_url pageNext cfgPlainNext "https://ex.com/jobs" =
      some "https://ex.com/p2" := by
  have h := C7_plain_next_selector pageNext cfgPlainNext "https://ex.com/jobs"
    ⟨"Next", [("href", "/p2")]⟩ (by decide) (by decide) (by decide) (by decide)
  exact h

/-! ## Partial-failure isolation (C9) -/

/-- C9: when the fetcher returns no content for the current listing page,
    the crawl loop stops at once and returns exactly the records collected
    from the pages already processed — nothing is raised and nothing
    already collected is discarded. -/
theorem C9_partial_results_on_fetch_failure (f : String → Option Page)
    (c : Config) (d : Bool) (now : String) (fuel : Nat) (url : String)
    (seen : List String) (jobs sink : List (String × Dict)) (n : Nat)
    (hu : ¬ url = "") (hf : f url = none) :
    scrape_site_loop f c d now (fuel + 1) (some url) seen jobs sink n =
      ⟨jobs, sink, n + 1, some url⟩ := by
  simp [scrape_site_loop, hu, hf]

/-- C9 witness: a crawl that has already collected one record and whose
    next listing-page fetch fails returns exactly that record. -/
theorem C9_witness :
    scrape_site_loop fetch9 cfg9 false "t" 5 (some "https://s/2")
      ["https://ex.com/j1"] [("https://ex.com/j1", [("title", "Job1")])] [] 1 =
      ⟨[("https://ex.com/j1", [("title", "Job1")])], [], 2, some "https://s/2"⟩ :=
  C9_partial_results_on_fetch_failure fetch9 cfg9 false "t" 4 "https://s/2"
    ["https://ex.com/j1"] [("https://ex.com/j1", [("title", "Job1")])] [] 1
    (by decide) rfl

/-! ## Synthetic pagination (C4) -/

/-- `takeWhile` over an append whose first part satisfies the predicate and
    whose second part starts failing it. -/
theorem takeWhile_append_eq (p : Char → Bool) (xs ys : List Char)
    (h1 : ∀ c ∈ xs, p c = true)
    (h2 : ∀ c, ys.head? = some c → p c = false) :
    (xs ++ ys).takeWhile p = xs := by
  induction xs with
  | nil =>
    cases ys with
    | nil => rfl
    | cons y t => simp [List.takeWhile_cons, h2 y rfl]
  | cons x t ih =>
    have hx := h1 x (List.mem_cons_self x t)
    simp only [List.cons_append, List.takeWhile_cons, hx, if_true]
    rw [ih (fun c hc => h1 c (List.mem_cons_of_mem x hc))]

/-- `dropWhile` counterpart of `takeWhile_append_eq`. -/
theorem dropWhile_append_eq (p : Char → Bool) (xs ys : List Char)
    (h1 : ∀ c ∈ xs, p c = true)
    (h2 : ∀ c, ys.head? = some c → p c = false) :
    (xs ++ ys).dropWhile p = ys := by
  induction xs with
  | nil =>
    cases ys with
    | nil => rfl
    | cons y t => simp [List.dropWhile_cons, h2 y rfl]
  | cons x t ih =>
    have hx := h1 x (List.mem_cons_self x t)
    simp only [List.cons_append, List.dropWhile_cons, hx, if_true]
    exact ih (fun c hc => h1 c (List.mem_cons_of_mem x hc))

/-- The page-number search at an exact `page=<digits>` occurrence. -/
theorem findPageNum_exact (ds b : List Char) (hds : ds ≠ [])
    (hdig : ∀ c ∈ ds, c.isDigit = true)
    (hb : ∀ c, b.head? = some c → c.isDigit = false) :
    findPageNum (pageKey ++ ds ++ b) = some (digitsVal ds) := by
  obtain ⟨d0, ds2, rfl⟩ : ∃ d0 ds2, ds = d0 :: ds2 := by
    cases ds with
    | nil => exact absurd rfl hds
    | cons d0 ds2 => exact ⟨d0, ds2, rfl⟩
  have hd0 : d0.isDigit = true := hdig d0 (List.mem_cons_self d0 ds2)
  have htake : ((d0 :: ds2) ++ b).takeWhile Char.isDigit = d0 :: ds2 :=
    takeWhile_append_eq Char.isDigit (d0 :: ds2) b hdig hb
  have hmatch : pageAt (pageKey ++ (d0 :: ds2) ++ b) = true := by
    simp [pageAt, pageKey, List.isPrefixOf, List.cons_append, hd0]
  simp only [pageKey, List.cons_append, List.nil_append] at hmatch ⊢
  rw [findPageNum, hmatch]
  simp only [if_true, List.drop_succ_cons, List.drop_zero]
  rw [List.cons_append] at htake
  rw [htake]

/-- The page-number search on a locator with no match at all. -/
theorem findPageNum_none :
    ∀ (u : List Char), (∀ i, i < u.length → pageAt (u.drop i) = false) →
      findPageNum u = none
  | [], _ => rfl
  | c :: rest, h => by
    have h0 : pageAt (c :: rest) = false := by simpa using h 0 (by simp)
    simp only [findPageNum, h0, Bool.false_eq_true, if_false]
    exact findPageNum_none rest (fun i hi => by
      have h2 := h (i + 1) (by simpa using Nat.succ_lt_succ hi)
      simpa [List.drop_succ_cons] using h2)

/-- The page-number search skips a region with no match. -/
theorem findPageNum_after (a tail : List Char)
    (ha : ∀ i, i < a.length → pageAt ((a ++ tail).drop i) = false) :
    findPageNum (a ++ tail) = findPageNum tail := by
  induction a with
  | nil => rfl
  | cons c a2 ih =>
    have h0 : pageAt (c :: (a2 ++ tail)) = false := by
      have h := ha 0 (by simp)
      simpa using h
    simp only [List.cons_append, findPageNum, List.append_eq, h0,
      Bool.false_eq_true, if_false]
    exact ih (fun i hi => by
      have h := ha (i + 1) (by simpa using Nat.succ_lt_succ hi)
      simpa [List.drop_succ_cons] using h)

/-- C4 (amended): the synthetic paginator parses the page number from the
    first `page=<digits>` occurrence of the current locator — defaulting to
    1 when no such occurrence exists — computes next = current + 1, returns
    no locator when next exceeds the profile's `max_pages`, and otherwise
    returns the current locator with `&page=<next>` (or `?page=<next>` when
    the locator has no `?`) appended — the existing page parameter, when
    present, is retained rather than set to the new value.  The first
    conjunct settles locators carrying a page parameter, the second those
    without one (the typical start URL). -/
theorem C4_synthetic_paging_appends (config : Config) :
    (∀ a ds b : List Char, ds ≠ [] → (∀ c ∈ ds, c.isDigit = true) →
      (∀ c, b.head? = some c → c.isDigit = false) →
      (∀ i, i < a.length →
        pageAt (((a ++ pageKey) ++ ds ++ b).drop i) = false) →
      handle_javascript_pagination ⟨(a ++ pageKey) ++ ds ++ b⟩ config =
        (if digitsVal ds + 1 > config.max_pages then none
         else some ⟨((a ++ pageKey) ++ ds ++ b) ++
           ((if ((a ++ pageKey) ++ ds ++ b).contains '?' then '&' :: pageKey
             else '?' :: pageKey) ++ (Nat.repr (digitsVal ds + 1)).data)⟩)) ∧
    (∀ u : List Char, (∀ i, i < u.length → pageAt (u.drop i) = false) →
      handle_javascript_pagination ⟨u⟩ config =
        (if 2 > config.max_pages then none
         else some ⟨u ++ ((if u.contains '?' then '&' :: pageKey
           else '?' :: pageKey) ++ (Nat.repr 2).data)⟩)) := by
  constructor
  · intro a ds b hds hdig hb ha
    have hassoc : (a ++ pageKey) ++ ds ++ b = a ++ (pageKey ++ ds ++ b) := by
      simp [List.append_assoc]
    have hfind : findPageNum ((a ++ pageKey) ++ ds ++ b) =
        some (digitsVal ds) := by
      rw [hassoc]
      rw [findPageNum_after a (pageKey ++ ds ++ b)
        (fun i hi => by
          have h := ha i hi
          rwa [hassoc] at h)]
      have h := findPageNum_exact ds b hds hdig hb
      rwa [List.append_assoc] at h
    unfold handle_javascript_pagination
    rw [show (⟨(a ++ pageKey) ++ ds ++ b⟩ : String).data =
          (a ++ pageKey) ++ ds ++ b from rfl, hfind]
    cases hq : ((a ++ pageKey) ++ ds ++ b).contains '?' <;>
      simp [hq, Option.getD]
  · intro u hu
    unfold handle_javascript_pagination
    rw [show (⟨u⟩ : String).data = u from rfl, findPageNum_none u hu]
    cases hq : u.contains '?' <;> simp [hq, Option.getD]

/-- C4 witness: on `http://e.com/jobs?page=2` with the default
    `max_pages = 10` the paginator returns the locator with `&page=3`
    appended, and on the parameter-free `http://e.com/jobs` it defaults the
    current page to 1 and appends `?page=2`. -/
theorem C4_witness :
    handle_javascript_pagination "http://e.com/jobs?page=2" ({} : Config) =
      some "http://e.com/jobs?page=2&page=3" ∧
    handle_javascript_pagination "http://e.com/jobs" ({} : Config) =
      some "http://e.com/jobs?page=2" := by
  constructor
  · have h := (C4_synthetic_paging_appends ({} : Config)).1
      ("http://e.com/jobs?".data) ['2'] [] (by decide) (by decide)
      (by decide) (by decide)
    exact h
  · have h := (C4_synthetic_paging_appends ({} : Config)).2
      ("http://e.com/jobs".data) (by decide)
    exact h

/-! ## Cross-page deduplication (C1) -/

/-- The cross-page filter: the seen-set only grows, every admitted key is
    fresh and afterwards seen, and the admitted keys are pairwise
    distinct. -/
theorem filter_unique_spec :
    ∀ (pj : List Dict) (seen : List String),
      ((filter_unique pj seen).2.map Prod.fst).Nodup ∧
      (∀ k ∈ (filter_unique pj seen).2.map Prod.fst,
        ¬ k ∈ seen ∧ k ∈ (filter_unique pj seen).1) ∧
      (∀ s ∈ seen, s ∈ (filter_unique pj seen).1)
  | [], seen => by
    refine ⟨List.nodup_nil, ?_, fun s hs => hs⟩
    intro k hk
    simp [filter_unique] at hk
  | job :: rest, seen => by
    simp only [filter_unique]
    cases hc : (dictGetD job "apply_url" "" != "" &&
        !seen.contains (dictGetD job "apply_url" "")) with
    | false =>
      simp only [Bool.false_eq_true, if_false]
      exact filter_unique_spec rest seen
    | true =>
      simp only [if_true]
      obtain ⟨ihN, ihF, ihM⟩ :=
        filter_unique_spec rest (dictGetD job "apply_url" "" :: seen)
      have hfresh : ¬ dictGetD job "apply_url" "" ∈ seen := by
        rw [Bool.and_eq_true] at hc
        simpa using hc.2
      refine ⟨?_, ?_, ?_⟩
      · refine List.Nodup.cons ?_ ihN
        intro hmem
        exact (ihF _ hmem).1 (List.mem_cons_self _ _)
      · intro k hk
        rcases List.mem_cons.mp hk with hk | hk
        · subst hk
          exact ⟨hfresh, ihM _ (List.mem_cons_self _ _)⟩
        · obtain ⟨hnot, hin⟩ := ihF k hk
          exact ⟨fun hs => hnot (List.mem_cons_of_mem _ hs), hin⟩
      · intro s hs
        exact ihM s (List.mem_cons_of_mem _ hs)

/-- The detail pass preserves each job's scan-time key. -/
theorem process_details_keys (uniq : List (String × Dict)) (c : Config)
    (f : String → Option Page) (d : Bool) :
    (process_details uniq c f d).map (fun t => t.1) = uniq.map Prod.fst := by
  induction uniq with
  | nil => rfl
  | cons kj rest ih =>
    simp only [process_details, List.map_cons] at ih ⊢
    cases hd : d && truthy kj.2 "apply_url"
    · simp only [hd, Bool.false_eq_true, if_false]
      exact congrArg (fun l => kj.1 :: l) ih
    · simp only [hd, if_true]
      exact congrArg (fun l => kj.1 :: l) ih

/-- Crawl-loop invariant: starting from accumulators whose scan-time keys
    are pairwise distinct and already marked seen, the final collections
    keep pairwise-distinct keys. -/
theorem scrape_site_loop_nodup (f : String → Option Page) (c : Config)
    (d : Bool) (now : String) :
    ∀ (fuel : Nat) (cur : Option String) (seen : List String)
      (jobs sink : List (String × Dict)) (n : Nat),
      (jobs.map Prod.fst).Nodup →
      (sink.map Prod.fst).Nodup →
      (∀ k ∈ jobs.map Prod.fst, k ∈ seen) →
      (∀ k ∈ sink.map Prod.fst, k ∈ seen) →
      ((scrape_site_loop f c d now fuel cur seen jobs sink n).jobs.map
        Prod.fst).Nodup ∧
      ((scrape_site_loop f c d now fuel cur seen jobs sink n).sink.map
        Prod.fst).Nodup
  | 0, cur, seen, jobs, sink, n => fun h1 h2 _ _ => ⟨h1, h2⟩
  | fuel + 1, none, seen, jobs, sink, n => fun h1 h2 _ _ => ⟨h1, h2⟩
  | fuel + 1, some url, seen, jobs, sink, n => by
    intro h1 h2 h3 h4
    by_cases hu : url = ""
    · simp only [scrape_site_loop, hu, if_true]
      exact ⟨h1, h2⟩
    · cases hf : f url with
      | none =>
        simp only [scrape_site_loop, hu, if_false, hf]
        exact ⟨h1, h2⟩
      | some page =>
        simp only [scrape_site_loop, hu, if_false, hf]
        obtain ⟨fuN, fuF, fuM⟩ :=
          filter_unique_spec (scrape_job_listings page c now) seen
        set su := filter_unique (scrape_job_listings page c now) seen with hsu
        set processed := process_details su.2 c f d with hproc
        have hkeys : processed.map (fun t => t.1) = su.2.map Prod.fst :=
          process_details_keys su.2 c f d
        have hjkeys :
            ((jobs ++ processed.map (fun t => (t.1, _sanitize_job_fields t.2.1))).map
              Prod.fst) = jobs.map Prod.fst ++ su.2.map Prod.fst := by
          rw [List.map_append, List.map_map]
          rw [show (Prod.fst ∘ fun t : String × Dict × Bool =>
            (t.1, _sanitize_job_fields t.2.1)) = fun t => t.1 from rfl, hkeys]
        have hskeys :
            ((sink ++ ((processed.filter (fun t => t.2.2)).map
              (fun t => (t.1, t.2.1)))).map Prod.fst) =
            sink.map Prod.fst ++ (processed.filter (fun t => t.2.2)).map
              (fun t => t.1) := by
          rw [List.map_append, List.map_map]
          rfl
        have hsubl : List.Sublist
            ((processed.filter (fun t => t.2.2)).map (fun t => t.1))
            (su.2.map Prod.fst) := by
          rw [← hkeys]
          exact List.Sublist.map _ (List.filter_sublist processed)
        refine scrape_site_loop_nodup f c d now fuel
          (get_next_page_url page c url) su.1 _ _ (n + 1) ?_ ?_ ?_ ?_
        · rw [hjkeys]
          refine List.Nodup.append h1 fuN ?_
          intro a ha hb
          exact (fuF a hb).1 (h3 a ha)
        · rw [hskeys]
          refine List.Nodup.append h2 (List.Nodup.sublist hsubl fuN) ?_
          intro a ha hb
          exact (fuF a (List.Sublist.subset hsubl hb)).1 (h4 a ha)
        · rw [hjkeys]
          intro k hk
          rcases List.mem_append.mp hk with hk | hk
          · exact fuM k (h3 k hk)
          · exact (fuF k hk).2
        · rw [hskeys]
          intro k hk
          rcases List.mem_append.mp hk with hk | hk
          · exact fuM k (h4 k hk)
          · exact (fuF k (List.Sublist.subset hsubl hk)).2

/-- C1: within one `scrape_site` invocation, the scan-time identity URLs
    (`apply_url`) of the records handed to `save_job_to_database` are
    pairwise distinct, and so are those of the records appended to the
    returned collection: for any two scanned records with equal identity
    URLs — whether on the same listing page or on later pages — at most one
    reaches the sink and at most one the result; the later occurrences are
    skipped silently. -/
theorem C1_dedup_unique_identities (f : String → Option Page) (c : Config)
    (maxp : Nat) (d : Bool) (now : String) :
    ((scrape_site f c maxp d now).sink.map Prod.fst).Nodup ∧
    ((scrape_site f c maxp d now).jobs.map Prod.fst).Nodup := by
  obtain ⟨hj, hs⟩ := scrape_site_loop_nodup f c d now maxp
    (some c.start_url) [] [] [] 0 List.nodup_nil List.nodup_nil
    (by intro k hk; simp at hk) (by intro k hk; simp at hk)
  exact ⟨hs, hj⟩

/-! ## Emitted-record identity fields (C6) -/

theorem truthy_congr (a b : Dict) (k : String)
    (h : dictGet a k = dictGet b k) : truthy a k = truthy b k := by
  unfold truthy dictGetD
  rw [h]

/-- After the url-mirroring step, a record with a truthy `apply_url` also
    has a truthy `url`. -/
theorem mirror_url_truthy (d : Dict)
    (h : truthy (mirror_url d) "apply_url" = true) :
    truthy (mirror_url d) "url" = true := by
  unfold mirror_url at h ⊢
  cases hd : truthy d "apply_url"
  · simp only [Bool.false_eq_true, if_false] at h ⊢
    exact absurd h (by simp [hd])
  · simp only [if_true] at h ⊢
    have hv : dictGetD (dictSet d "url" (dictGetD d "apply_url" "")) "url" "" =
        dictGetD d "apply_url" "" := by
      unfold dictGetD
      rw [dictGet_set_self]
      rfl
    unfold truthy
    rw [hv]
    exact hd

/-- Every record the scan loop adds has truthy `title`, `apply_url` and
    `url`. -/
theorem scan_loop_mem (page : Page) (config : Config) (now : String) :
    ∀ (cs : List Scope) (jobs : List Dict) (seen : List String) (r : Dict),
      r ∈ scan_loop page config now cs jobs seen →
      r ∈ jobs ∨ (truthy r "title" = true ∧ truthy r "apply_url" = true ∧
        truthy r "url" = true)
  | [], _, _, r => fun h => Or.inl h
  | c :: rest, jobs, seen, r => by
    intro h
    simp only [scan_loop] at h
    cases hg : truthy (build_record page config now c) "title" &&
        truthy (build_record page config now c) "apply_url" with
    | false =>
      rw [hg] at h
      simp only [Bool.false_eq_true, if_false] at h
      exact scan_loop_mem page config now rest jobs seen r h
    | true =>
      rw [hg] at h
      simp only [if_true] at h
      cases hs : seen.contains
          (dictGetD (build_record page config now c) "apply_url" "") with
      | true =>
        rw [hs] at h
        simp only [if_true] at h
        exact scan_loop_mem page config now rest jobs seen r h
      | false =>
        rw [hs] at h
        simp only [Bool.false_eq_true, if_false] at h
        rcases scan_loop_mem page config now rest _ _ r h with hr | hr
        · rcases List.mem_append.mp hr with hr | hr
          · exact Or.inl hr
          · right
            have hrj : r = build_record page config now c := by simpa using hr
            rw [Bool.and_eq_true] at hg
            subst hrj
            exact ⟨hg.1, hg.2, mirror_url_truthy _ hg.2⟩
        · exact Or.inr hr

/-- Every record of the listing scan has truthy `title`, `apply_url` and
    `url`. -/
theorem scrape_job_listings_mem (page : Page) (config : Config) (now : String)
    (r : Dict) (h : r ∈ scrape_job_listings page config now) :
    truthy r "title" = true ∧ truthy r "apply_url" = true ∧
      truthy r "url" = true := by
  rcases scan_loop_mem page config now (page.select config.job_container)
      [] [] r h with hr | hr
  · simp at hr
  · exact hr

/-- The cross-page filter only forwards scanned records. -/
theorem filter_unique_mem :
    ∀ (pj : List Dict) (seen : List String) (kj : String × Dict),
      kj ∈ (filter_unique pj seen).2 → kj.2 ∈ pj
  | [], seen, kj => by
    intro h
    simp [filter_unique] at h
  | job :: rest, seen, kj => by
    simp only [filter_unique]
    cases hc : (dictGetD job "apply_url" "" != "" &&
        !seen.contains (dictGetD job "apply_url" "")) with
    | false =>
      simp only [Bool.false_eq_true, if_false]
      intro h
      exact List.mem_cons_of_mem _ (filter_unique_mem rest seen kj h)
    | true =>
      simp only [if_true]
      intro h
      rcases List.mem_cons.mp h with h | h
      · rw [h]
        exact List.mem_cons_self _ _
      · exact List.mem_cons_of_mem _ (filter_unique_mem rest _ kj h)

/-- Keys produced by a fold of dict assignments come from the assigned
    key list (or the start dictionary). -/
theorem mem_foldl_dictSet (val : Dict → String × String → String) :
    ∀ (l : List (String × String)) (d0 : Dict) (p : String × String),
      p ∈ l.foldl (fun jd fs => dictSet jd fs.1 (val jd fs)) d0 →
      p ∈ d0 ∨ ∃ fs ∈ l, p.1 = fs.1
  | [], d0, p => fun h => Or.inl h
  | fs :: rest, d0, p => by
    intro h
    rcases mem_foldl_dictSet val rest (dictSet d0 fs.1 (val d0 fs)) p h with
      hr | hr
    · rcases mem_dictSet d0 fs.1 (val d0 fs) p hr with hd | hd
      · exact Or.inl hd
      · exact Or.inr ⟨fs, List.mem_cons_self fs rest, hd⟩
    · obtain ⟨q, hq, hpq⟩ := hr
      exact Or.inr ⟨q, List.mem_cons_of_mem fs hq, hpq⟩

/-- Every key of a fetched detail map is one of the profile's detail
    selector keys. -/
theorem scrape_job_details_keys (job_url : String) (config : Config)
    (fetch : String → Option Page) (p : String × String)
    (h : p ∈ scrape_job_details job_url config fetch) :
    ∃ fs ∈ config.job_detail_selectors, p.1 = fs.1 := by
  unfold scrape_job_details at h
  cases hf : fetch (resolve_link config job_url) with
  | none =>
    rw [hf] at h
    simp at h
  | some page =>
    rw [hf] at h
    rcases mem_foldl_dictSet
      (fun _ fs => extract_text_from_selector page.root fs.2 none)
      config.job_detail_selectors [] p h with hd | hd
    · simp at hd
    · exact hd

/-- `sanitize_phase1` does not touch keys other than `posted_date` and
    `date_posted`. -/
theorem sanitize_phase1_get (d : Dict) (k : String)
    (h1 : ¬ k = "posted_date") (h2 : ¬ k = "date_posted") :
    dictGet (sanitize_phase1 d) k = dictGet d k := by
  unfold sanitize_phase1
  cases hh : dictHas d "date_posted"
  · simp only [Bool.false_eq_true, if_false]
  · simp only [if_true]
    rw [dictGet_pop_ne _ _ _ (fun he => h2 he.symm)]
    cases hc : !truthy d "posted_date" && truthy d "date_posted"
    · simp only [Bool.false_eq_true, if_false]
    · simp only [if_true]
      exact dictGet_set_ne _ _ _ _ (fun he => h1 he.symm)

/-- `sanitize_phase2` does not touch keys other than `url`. -/
theorem sanitize_phase2_get (d : Dict) (k : String) (h : ¬ k = "url") :
    dictGet (sanitize_phase2 d) k = dictGet d k := by
  unfold sanitize_phase2
  cases hc : truthy d "apply_url" && !truthy d "url"
  · simp only [Bool.false_eq_true, if_false]
  · simp only [if_true]
    exact dictGet_set_ne _ _ _ _ (fun he => h he.symm)

/-- `sanitize_phase2` is the identity on records whose `url` is already
    truthy. -/
theorem sanitize_phase2_of_truthy (d : Dict) (h : truthy d "url" = true) :
    sanitize_phase2 d = d := by
  unfold sanitize_phase2
  rw [h]
  simp

/-- Sanitization preserves a truthy `title`. -/
theorem sanitize_title (d : Dict) (h : truthy d "title" = true) :
    truthy (_sanitize_job_fields d) "title" = true := by
  unfold _sanitize_job_fields
  rw [truthy_congr _ (sanitize_phase2 (sanitize_phase1 d)) "title"
    (dictGet_filter _ _ _ (by decide))]
  rw [truthy_congr _ (sanitize_phase1 d) "title"
    (sanitize_phase2_get _ _ (by decide))]
  rw [truthy_congr _ d "title" (sanitize_phase1_get _ _ (by decide) (by decide))]
  exact h

/-- Sanitization preserves a truthy `url`. -/
theorem sanitize_url (d : Dict) (h : truthy d "url" = true) :
    truthy (_sanitize_job_fields d) "url" = true := by
  unfold _sanitize_job_fields
  have h1 : truthy (sanitize_phase1 d) "url" = true := by
    rw [truthy_congr _ d "url"
      (sanitize_phase1_get _ _ (by decide) (by decide))]
    exact h
  rw [truthy_congr _ (sanitize_phase2 (sanitize_phase1 d)) "url"
    (dictGet_filter _ _ _ (by decide))]
  rw [sanitize_phase2_of_truthy _ h1]
  exact h1

/-- A detail merge whose keys avoid `title` and `url` preserves their
    truthiness. -/
theorem update_preserves (j e : Dict) (k : String)
    (hk : ∀ p ∈ e, ¬ p.1 = k) (h : truthy j k = true) :
    truthy (dictUpdate j e) k = true := by
  rw [truthy_congr _ j k (dictGet_update_not_mem j e k hk)]
  exact h

/-- Crawl-loop invariant for C6. -/
theorem scrape_site_loop_emitted (f : String → Option Page) (c : Config)
    (d : Bool) (now : String)
    (hdet : ∀ kv ∈ c.job_detail_selectors, ¬ kv.1 = "title" ∧ ¬ kv.1 = "url") :
    ∀ (fuel : Nat) (cur : Option String) (seen : List String)
      (jobs sink : List (String × Dict)) (n : Nat),
      (∀ kj ∈ jobs, truthy kj.2 "title" = true ∧ truthy kj.2 "url" = true) →
      (∀ kj ∈ sink, truthy kj.2 "title" = true ∧ truthy kj.2 "url" = true) →
      (∀ kj ∈ (scrape_site_loop f c d now fuel cur seen jobs sink n).jobs,
        truthy kj.2 "title" = true ∧ truthy kj.2 "url" = true) ∧
      (∀ kj ∈ (scrape_site_loop f c d now fuel cur seen jobs sink n).sink,
        truthy kj.2 "title" = true ∧ truthy kj.2 "url" = true)
  | 0, cur, seen, jobs, sink, n => fun h1 h2 => ⟨h1, h2⟩
  | fuel + 1, none, seen, jobs, sink, n => fun h1 h2 => ⟨h1, h2⟩
  | fuel + 1, some url, seen, jobs, sink, n => by
    intro h1 h2
    by_cases hu : url = ""
    · simp only [scrape_site_loop, hu, if_true]
      exact ⟨h1, h2⟩
    · cases hf : f url with
      | none =>
        simp only [scrape_site_loop, hu, if_false, hf]
        exact ⟨h1, h2⟩
      | some page =>
        simp only [scrape_site_loop, hu, if_false, hf]
        set su := filter_unique (scrape_job_listings page c now) seen with hsu
        set processed := process_details su.2 c f d with hproc
        have hmerged : ∀ t ∈ processed,
            truthy t.2.1 "title" = true ∧ truthy t.2.1 "url" = true := by
          intro t ht
          rw [hproc] at ht
          unfold process_details at ht
          rcases List.mem_map.mp ht with ⟨kj, hkj, hte⟩
          have hj : kj.2 ∈ scrape_job_listings page c now :=
            filter_unique_mem _ _ kj (by rw [← hsu]; exact hkj)
          obtain ⟨hjt, hja, hju⟩ := scrape_job_listings_mem page c now kj.2 hj
          cases hd2 : d && truthy kj.2 "apply_url"
          · rw [hd2] at hte
            simp only [Bool.false_eq_true, if_false] at hte
            rw [← hte]
            exact ⟨hjt, hju⟩
          · rw [hd2] at hte
            simp only [if_true] at hte
            rw [← hte]
            refine ⟨update_preserves _ _ _ ?_ hjt, update_preserves _ _ _ ?_ hju⟩
            · intro p hp
              obtain ⟨fs, hfs, hpfs⟩ := scrape_job_details_keys _ c f p hp
              rw [hpfs]
              exact (hdet fs hfs).1
            · intro p hp
              obtain ⟨fs, hfs, hpfs⟩ := scrape_job_details_keys _ c f p hp
              rw [hpfs]
              exact (hdet fs hfs).2
        refine scrape_site_loop_emitted f c d now hdet fuel
          (get_next_page_url page c url) su.1 _ _ (n + 1) ?_ ?_
        · intro kj hkj
          rcases List.mem_append.mp hkj with hkj | hkj
          · exact h1 kj hkj
          · rcases List.mem_map.mp hkj with ⟨t, ht, hte⟩
            obtain ⟨htt, htu⟩ := hmerged t ht
            rw [← hte]
            exact ⟨sanitize_title _ htt, sanitize_url _ htu⟩
        · intro kj hkj
          rcases List.mem_append.mp hkj with hkj | hkj
          · exact h2 kj hkj
          · rcases List.mem_map.mp hkj with ⟨t, ht, hte⟩
            obtain ⟨htt, htu⟩ := hmerged t (List.mem_of_mem_filter ht)
            rw [← hte]
            exact ⟨htt, htu⟩

/-- C6 (amended): provided the profile's detail selectors do not name
    `title` or `url`, every record emitted by a crawl — appended to
    `scrape_site`'s returned collection or handed to
    `save_job_to_database` — has a non-empty title and a non-empty identity
    URL, including after detail-page fields have been merged into the
    record.  (When a detail selector does name `title` or `url`, the merge
    can overwrite them with empty extractions — `C6_counterexample`.) -/
theorem C6_nonempty_identity (f : String → Option Page) (c : Config)
    (maxp : Nat) (d : Bool) (now : String)
    (hdet : ∀ kv ∈ c.job_detail_selectors, ¬ kv.1 = "title" ∧ ¬ kv.1 = "url") :
    (∀ kj ∈ (scrape_site f c maxp d now).jobs,
      truthy kj.2 "title" = true ∧ truthy kj.2 "url" = true) ∧
    (∀ kj ∈ (scrape_site f c maxp d now).sink,
      truthy kj.2 "title" = true ∧ truthy kj.2 "url" = true) :=
  scrape_site_loop_emitted f c d now hdet maxp (some c.start_url) [] [] [] 0
    (by intro kj hkj; simp at hkj) (by intro kj hkj; simp at hkj)

/-- C6 witness: a concrete one-page crawl whose detail selectors avoid
    `title`/`url` emits its record with non-empty title and identity URL. -/
theorem C6_witness :
    truthy [("title", "Job1"), ("source_site", "S"), ("scraped_at", "t"),
      ("url", "https://ex.com/j1")] "title" = true ∧
    truthy [("title", "Job1"), ("source_site", "S"), ("scraped_at", "t"),
      ("url", "https://ex.com/j1")] "url" = true :=
  (C6_nonempty_identity fetch6 cfg6w 1 false "t" (by decide)).1
    ("https://ex.com/j1",
      [("title", "Job1"), ("source_site", "S"), ("scraped_at", "t"),
        ("url", "https://ex.com/j1")])
    (by decide)

/-! ## URL resolution (C8, C10) -/

theorem splitScheme_https (r : List Char) :
    splitScheme ("https".data ++ ':' :: r) = some ("https".data, r) := by
  show splitScheme ('h' :: 't' :: 't' :: 'p' :: 's' :: ':' :: r) = _
  unfold splitScheme
  simp [List.isPrefixOf]

theorem splitScheme_http (r : List Char) :
    splitScheme ("http".data ++ ':' :: r) = some ("http".data, r) := by
  show splitScheme ('h' :: 't' :: 't' :: 'p' :: ':' :: r) = _
  unfold splitScheme
  simp [List.isPrefixOf]

theorem splitScheme_slash (t : List Char) :
    splitScheme ('/' :: t) = none := by
  unfold splitScheme
  simp [List.isPrefixOf]

/-- `urlsplit` of an absolute http(s) URL recovers its scheme and network
    location. -/
theorem urlsplitC_abs (sch netloc tail : List Char)
    (hsch : sch = "http".data ∨ sch = "https".data)
    (hnet : ∀ c ∈ netloc, netDelim c = false)
    (htail : ∀ c, tail.head? = some c → netDelim c = true) :
    (urlsplitC (sch ++ ':' :: '/' :: '/' :: (netloc ++ tail))).scheme = sch ∧
    (urlsplitC (sch ++ ':' :: '/' :: '/' :: (netloc ++ tail))).netloc =
      netloc := by
  have hsp : splitScheme (sch ++ ':' :: '/' :: '/' :: (netloc ++ tail)) =
      some (sch, '/' :: '/' :: (netloc ++ tail)) := by
    rcases hsch with h | h <;> rw [h]
    · exact splitScheme_http _
    · exact splitScheme_https _
  unfold urlsplitC
  rw [hsp]
  have hpre : (['/', '/'] : List Char).isPrefixOf
      ('/' :: '/' :: (netloc ++ tail)) = true := by
    simp [List.isPrefixOf]
  simp only [hpre, if_true, List.drop_succ_cons, List.drop_zero]
  constructor
  · first
    | rfl
    | trivial
  · show List.takeWhile (fun c => !netDelim c) (netloc ++ tail) = netloc
    exact takeWhile_append_eq (fun c => !netDelim c) netloc tail
      (fun c hc => by
        show (!netDelim c) = true
        rw [hnet c hc]
        rfl)
      (fun c hc => by
        show (!netDelim c) = false
        rw [htail c hc]
        rfl)

theorem dotResolve_aux :
    ∀ (l : List (List Char)) (acc : List (List Char)),
      (∀ s ∈ l, ¬ s = ['.'] ∧ ¬ s = ['.', '.']) →
      l.foldl (fun acc seg =>
        if seg == ['.', '.'] then acc.dropLast
        else if seg == ['.'] then acc
        else acc ++ [seg]) acc = acc ++ l
  | [], acc, _ => by simp
  | seg :: rest, acc, h => by
    have h1 := h seg (List.mem_cons_self seg rest)
    have hdd : (seg == ['.', '.']) = false := beq_false_of_ne h1.2
    have hd : (seg == ['.']) = false := beq_false_of_ne h1.1
    simp only [List.foldl_cons, hdd, hd, Bool.false_eq_true, if_false]
    rw [dotResolve_aux rest (acc ++ [seg])
      (fun s hs => h s (List.mem_cons_of_mem seg hs))]
    simp

/-- Dot-segment resolution is the identity on dot-free segment lists. -/
theorem dotResolve_no_dots (l : List (List Char))
    (h : ∀ s ∈ l, ¬ s = ['.'] ∧ ¬ s = ['.', '.']) : dotResolve l = l := by
  unfold dotResolve
  rw [dotResolve_aux l [] h]
  simp

theorem getLastD_mem {α : Type} :
    ∀ (l : List α), l ≠ [] → ∀ d : α, l.getLastD d ∈ l
  | [], h, _ => absurd rfl h
  | x :: rest, _, d => by
    rw [List.getLastD_cons]
    cases rest with
    | nil => simp
    | cons y t =>
      exact List.mem_cons_of_mem x (getLastD_mem (y :: t) (by simp) x)

theorem splitCh_ne_nil (sep : Char) : ∀ (s : List Char), splitCh sep s ≠ []
  | [] => by simp [splitCh]
  | c :: rest => by
    simp only [splitCh]
    cases hc : c == sep
    · simp only [Bool.false_eq_true, if_false]
      cases hr : splitCh sep rest with
      | nil => exact absurd hr (splitCh_ne_nil sep rest)
      | cons h t => simp
    · simp

/-- Splitting and re-joining on the same separator is the identity. -/
theorem joinCh_splitCh (sep : Char) : ∀ (s : List Char),
    joinCh sep (splitCh sep s) = s
  | [] => rfl
  | c :: rest => by
    simp only [splitCh]
    cases hc : c == sep
    · simp only [Bool.false_eq_true, if_false]
      cases hr : splitCh sep rest with
      | nil => exact absurd hr (splitCh_ne_nil sep rest)
      | cons h t =>
        have ih := joinCh_splitCh sep rest
        rw [hr] at ih
        cases t with
        | nil =>
          simp only [joinCh] at ih ⊢
          rw [ih]
        | cons q t2 =>
          simp only [joinCh] at ih ⊢
          rw [List.cons_append, ih]
    · have hcs : c = sep := by simpa using hc
      have ih := joinCh_splitCh sep rest
      cases hr : splitCh sep rest with
      | nil => exact absurd hr (splitCh_ne_nil sep rest)
      | cons h t =>
        rw [hr] at ih
        simp only [if_true, joinCh]
        rw [ih, hcs]
        rfl

/-- `urlunsplit` of parts with a scheme, a netloc and a `/`-led path. -/
theorem urlunsplitC_abs (sch netloc P Q F : List Char)
    (hn : netloc.isEmpty = false) (hs : sch.isEmpty = false)
    (hP : (['/'] : List Char).isPrefixOf P = true) :
    urlunsplitC ⟨sch, netloc, P, Q, F⟩ =
      sch ++ ':' :: '/' :: '/' :: (netloc ++ (P ++
        (if Q.isEmpty then [] else '?' :: Q) ++
        (if F.isEmpty then [] else '#' :: F))) := by
  unfold urlunsplitC
  cases hQ : Q.isEmpty <;> cases hF : F.isEmpty <;>
    simp [hn, hs, hP, hQ, hF, List.append_assoc]

theorem urlsplitC_slash (t : List Char)
    (h2 : (['/', '/'] : List Char).isPrefixOf ('/' :: t) = false) :
    urlsplitC ('/' :: t) =
      ⟨[], [], (splitFirstCh '?' (splitFirstCh '#' ('/' :: t)).1).1,
        ((splitFirstCh '?' (splitFirstCh '#' ('/' :: t)).1).2).getD [],
        ((splitFirstCh '#' ('/' :: t)).2).getD []⟩ := by
  unfold urlsplitC
  rw [splitScheme_slash]
  simp only [h2, Bool.false_eq_true, if_false]

theorem splitFirstCh_head (sep x : Char) (xs : List Char)
    (hx : (x == sep) = false) :
    splitFirstCh sep (x :: xs) =
      (x :: (splitFirstCh sep xs).1, (splitFirstCh sep xs).2) := by
  simp [splitFirstCh, hx]

theorem urlsplitC_slash_path (t : List Char)
    (h2 : (['/', '/'] : List Char).isPrefixOf ('/' :: t) = false) :
    (urlsplitC ('/' :: t)).path =
      '/' :: (splitFirstCh '?' (splitFirstCh '#' t).1).1 := by
  rw [urlsplitC_slash t h2]
  show (splitFirstCh '?' (splitFirstCh '#' ('/' :: t)).1).1 = _
  rw [splitFirstCh_head '#' '/' t (by decide)]
  show (splitFirstCh '?' ('/' :: (splitFirstCh '#' t).1)).1 = _
  rw [splitFirstCh_head '?' '/' _ (by decide)]

/-- The urljoin branch on a `/`-led reference against an absolute http(s)
    base: re-assembly of the computed path with the base's scheme and
    netloc and the reference's query and fragment. -/
theorem urljoinC_slash_eq (sch netloc rest t : List Char)
    (hsch : sch = "http".data ∨ sch = "https".data)
    (hnet : ∀ c ∈ netloc, netDelim c = false)
    (hrest : ∀ c, rest.head? = some c → netDelim c = true)
    (h2 : (['/', '/'] : List Char).isPrefixOf ('/' :: t) = false) :
    urljoinC (sch ++ ':' :: '/' :: '/' :: (netloc ++ rest)) ('/' :: t) =
      urlunsplitC ⟨sch, netloc, resolvedSlashPath t,
        (urlsplitC ('/' :: t)).query, (urlsplitC ('/' :: t)).fragment⟩ := by
  obtain ⟨hbs, hbn⟩ := urlsplitC_abs sch netloc rest hsch hnet hrest
  have hbne : (sch ++ ':' :: '/' :: '/' :: (netloc ++ rest)).isEmpty =
      false := by
    rcases hsch with h | h <;> subst h <;> rfl
  have hpath : (splitFirstCh '?' (splitFirstCh '#' ('/' :: t)).1).1 =
      '/' :: (splitFirstCh '?' (splitFirstCh '#' t).1).1 := by
    rw [splitFirstCh_head '#' '/' t (by decide)]
    rw [splitFirstCh_head '?' '/' _ (by decide)]
  have hup : (urlsplitC ('/' :: t)).path =
      (splitFirstCh '?' (splitFirstCh '#' ('/' :: t)).1).1 := by
    rw [urlsplitC_slash t h2]
  have hpre : ((['/'] : List Char)).isPrefixOf
      ((splitFirstCh '?' (splitFirstCh '#' ('/' :: t)).1).1) = true := by
    rw [hpath]
    simp [List.isPrefixOf]
  have hne : ((splitFirstCh '?' (splitFirstCh '#' ('/' :: t)).1).1).isEmpty
      = false := by
    rw [hpath]
    rfl
  unfold urljoinC resolvedSlashPath
  simp only [hbne, Bool.false_eq_true, if_false, List.isEmpty_cons,
    splitScheme_slash, Option.isSome_none, hbs, hbn,
    urlsplitC_slash t h2, hup, hpre, hne, ne_eq, not_true_eq_false,
    Bool.not_true, Bool.not_false, if_true, List.isEmpty_nil]

/-- The two resolution branches agree on a dot-free, round-tripping,
    single-slash reference against an absolute http(s) base. -/
theorem spa_join_eqC (sch netloc rest t : List Char)
    (hsch : sch = "http".data ∨ sch = "https".data)
    (hnl : netloc ≠ [])
    (hnet : ∀ c ∈ netloc, netDelim c = false)
    (hrest : ∀ c, rest.head? = some c → netDelim c = true)
    (h2 : (['/', '/'] : List Char).isPrefixOf ('/' :: t) = false)
    (hdots : ∀ seg ∈ splitCh '/' ((urlsplitC ('/' :: t)).path),
      ¬ seg = ['.'] ∧ ¬ seg = ['.', '.'])
    (hround : reassembleRef (urlsplitC ('/' :: t)) = '/' :: t) :
    sch ++ ':' :: '/' :: '/' :: (netloc ++ ('/' :: t)) =
      urljoinC (sch ++ ':' :: '/' :: '/' :: (netloc ++ rest)) ('/' :: t) := by
  rw [urljoinC_slash_eq sch netloc rest t hsch hnet hrest h2]
  have hn : netloc.isEmpty = false := by
    obtain ⟨n0, ns, rfl⟩ := List.exists_cons_of_ne_nil hnl
    rfl
  have hs : sch.isEmpty = false := by
    rcases hsch with h | h <;> subst h <;> rfl
  have hlast := hdots _
    (getLastD_mem _ (splitCh_ne_nil '/' ((urlsplitC ('/' :: t)).path)) [])
  have hpne : ((urlsplitC ('/' :: t)).path).isEmpty = false := by
    rw [urlsplitC_slash_path t h2]
    rfl
  have hrp : resolvedSlashPath t = (urlsplitC ('/' :: t)).path := by
    simp only [resolvedSlashPath]
    rw [dotResolve_no_dots _ hdots, beq_false_of_ne hlast.1,
      beq_false_of_ne hlast.2]
    simp only [Bool.or_self, Bool.false_eq_true, if_false]
    rw [joinCh_splitCh '/' ((urlsplitC ('/' :: t)).path), hpne]
    simp
  have hP : (['/'] : List Char).isPrefixOf ((urlsplitC ('/' :: t)).path)
      = true := by
    rw [urlsplitC_slash_path t h2]
    simp [List.isPrefixOf]
  rw [hrp, urlunsplitC_abs sch netloc _ _ _ hn hs hP]
  have h3 := hround
  unfold reassembleRef at h3
  rw [h3]

/-- C10 (amended): for every start URL that is an absolute http(s) URL and
    every identity link beginning with `/` but not `//`, whose path carries
    no `.` or `..` segments and which re-assembles from its parsed
    path/query/fragment, the single-page-application special-case branch
    (scheme + network location + link) computes the same absolute URL as
    the generic urljoin branch.  (Links beginning with `//`, and links with
    dot segments, are resolved differently by the two branches —
    `C10_counterexample`.) -/
theorem C10_spa_join_agree (base link : String) (sch netloc rest t : List Char)
    (hb : base.data = sch ++ ':' :: '/' :: '/' :: (netloc ++ rest))
    (hl : link.data = '/' :: t)
    (hsch : sch = "http".data ∨ sch = "https".data)
    (hnl : netloc ≠ [])
    (hnet : ∀ c ∈ netloc, netDelim c = false)
    (hrest : ∀ c, rest.head? = some c → netDelim c = true)
    (h2 : leadsWith link "//" = false)
    (hdots : ∀ seg ∈ splitCh '/' ((urlparse link).path),
      ¬ seg = ['.'] ∧ ¬ seg = ['.', '.'])
    (hround : reassembleRef (urlparse link) = link.data) :
    spa_reconstruct base link = urljoin base link := by
  have h2b : (['/', '/'] : List Char).isPrefixOf ('/' :: t) = false := by
    have h3 : leadsWith link "//" =
        (['/', '/'] : List Char).isPrefixOf link.data := rfl
    rw [h3, hl] at h2
    exact h2
  have hsp : urlsplitC ('/' :: t) = urlparse link := by
    rw [urlparse, hl]
  have hdots2 : ∀ seg ∈ splitCh '/' ((urlsplitC ('/' :: t)).path),
      ¬ seg = ['.'] ∧ ¬ seg = ['.', '.'] := by
    rw [hsp]
    exact hdots
  have hround2 : reassembleRef (urlsplitC ('/' :: t)) = '/' :: t := by
    rw [hsp, hround, hl]
  show String.mk ((urlparse base).scheme ++ "://".data ++
      (urlparse base).netloc ++ link.data) =
    String.mk (urljoinC base.data link.data)
  apply congrArg String.mk
  obtain ⟨hbs, hbn⟩ := urlsplitC_abs sch netloc rest hsch hnet hrest
  rw [show urlparse base = urlsplitC base.data from rfl, hb, hl, hbs, hbn]
  have hnorm : sch ++ "://".data ++ netloc ++ ('/' :: t) =
      sch ++ ':' :: '/' :: '/' :: (netloc ++ ('/' :: t)) := by
    rw [show ("://".data : List Char) = [':', '/', '/'] from rfl]
    simp [List.append_assoc]
  rw [hnorm]
  exact spa_join_eqC sch netloc rest t hsch hnl hnet hrest h2b hdots2 hround2

/-- C10 witness: the two branches agree on a concrete absolute base and
    single-slash link. -/
theorem C10_witness :
    spa_reconstruct "https://h.com/p" "/a/b?x=1" =
      urljoin "https://h.com/p" "/a/b?x=1" :=
  C10_spa_join_agree "https://h.com/p" "/a/b?x=1" ("https".data)
    ("h.com".data) ("/p".data) ("a/b?x=1".data) rfl rfl (Or.inr rfl)
    (by decide) (by decide)
    (fun c hc => by
      rw [show (("/p".data : List Char)).head? = some '/' from rfl] at hc
      simp at hc
      rw [← hc]
      rfl)
    (by decide) (by decide) (by decide)

end JobScraper
